import Mathlib

/-!
Shallow embedding of the Multi-Signal Content Ranking Engine
(`src/ranking/embedder.py`, `relevance_scorer.py`, `rank_aggregator.py`,
`content_selector.py`, `ranking_system.py`).

Python floats are modelled by exact rationals; metadata dictionaries by
ordered association lists with Python dict semantics (assignment keeps the
position of an existing key, appends otherwise); the current time, measured
durations and the availability of the remote / local embedding providers are
explicit parameters.  String primitives (`split`, `lower`, `in`) are given
structurally recursive models so that concrete runs reduce in the kernel.
-/

namespace DeepResearch

/-- Values that the ranking pipeline stores in a chunk's metadata dictionary:
numeric scores, strings (urls, source types, dates) and embedding vectors. -/
inductive MetaVal where
  | num (q : ℚ)
  | str (s : String)
  | vec (v : List ℚ)
  deriving DecidableEq

/-- Metadata dictionary: insertion-ordered association list, as Python dicts. -/
abbrev Metadata := List (String × MetaVal)

/-- Python `d.get(k)` / `k in d`: first binding of the key. -/
def mget (m : Metadata) (k : String) : Option MetaVal :=
  m.lookup k

/-- Python `d[k] = v`: overwrite in place (keeping the key's position) if the
key is present, append otherwise. -/
def mset (m : Metadata) (k : String) (v : MetaVal) : Metadata :=
  match m with
  | [] => [(k, v)]
  | (k', v') :: rest => if k' = k then (k, v) :: rest else (k', v') :: mset rest k v

/-- Python `d.get(k, default)` for a numeric field; the pipeline only ever
stores numbers under score keys. -/
def numD (m : Metadata) (k : String) (d : ℚ) : ℚ :=
  match mget m k with
  | some (.num q) => q
  | _ => d

/-- Python `d.get(k, default)` for a string field. -/
def strD (m : Metadata) (k : String) (d : String) : String :=
  match mget m k with
  | some (.str s) => s
  | _ => d

/-- Python `d.get(k)` for an embedding field, with `[]` standing for a missing
(falsy) embedding. -/
def vecOf (m : Metadata) (k : String) : List ℚ :=
  match mget m k with
  | some (.vec v) => v
  | _ => []

/-- Content chunk: `text` key (possibly absent) plus a metadata dictionary. -/
structure Chunk where
  text : Option String
  meta : Metadata
  deriving DecidableEq

theorem mget_mset_self (m : Metadata) (k : String) (v : MetaVal) :
    mget (mset m k v) k = some v := by
  induction m with
  | nil => simp [mget, mset, List.lookup]
  | cons hd tl ih =>
    obtain ⟨k', v'⟩ := hd
    by_cases h : k' = k
    · simp [mget, mset, h, List.lookup]
    · have hne : (k == k') = false := beq_eq_false_iff_ne.mpr (Ne.symm h)
      simp only [mset, if_neg h, mget, List.lookup, hne]
      exact ih

/-! ## RelevanceScorer.assess_content_quality -/

/-- Accumulator pass behind `pySplit`. -/
def wordsAux : List Char → List Char → List String
  | [], acc => if acc.isEmpty then [] else [String.mk acc.reverse]
  | c :: rest, acc =>
    if c.isWhitespace then
      if acc.isEmpty then wordsAux rest [] else String.mk acc.reverse :: wordsAux rest []
    else wordsAux rest (c :: acc)

/-- Python `text.split()` with no argument: split on whitespace runs, dropping
empty pieces. -/
def pySplit (s : String) : List String :=
  wordsAux s.toList []

/-- ASCII model of Python `str.lower()` (all quality indicators are ASCII). -/
def toLowerStr (s : String) : String :=
  String.mk (s.toList.map Char.toLower)

/-- The fixed list of structural quality indicators. -/
def quality_indicators : List String :=
  ["introduction", "methodology", "results", "conclusion", "references",
   "abstract", "discussion", "analysis", "experiment", "findings"]

/-- Whether the character list `t` begins the character list `s`. -/
def startsList : List Char → List Char → Bool
  | [], _ => true
  | _ :: _, [] => false
  | a :: as, b :: bs => a == b && startsList as bs

/-- Whether `t` occurs contiguously inside `s` (Python `t in s` on strings). -/
def occursIn (t : List Char) : List Char → Bool
  | [] => t.isEmpty
  | c :: s' => startsList t (c :: s') || occursIn t s'

/-- Python `sub in s` for strings. -/
def strContains (s sub : String) : Bool :=
  occursIn sub.toList s.toList

/-- Number of quality indicators occurring in the lowercased text. -/
def indicatorCount (text : String) : ℕ :=
  (quality_indicators.filter (fun ind => strContains (toLowerStr text) ind)).length

/-- Word-count base of `assess_content_quality` (note the strict comparisons
in the source). -/
def qualityBase (wc : ℕ) : ℚ :=
  if wc > 300 then 1
  else if wc > 150 then 8/10
  else if wc > 75 then 6/10
  else 4/10

/-- Shallow embedding of `RelevanceScorer.assess_content_quality`. -/
def assess_content_quality (chunk : Chunk) : ℚ :=
  if indicatorCount (chunk.text.getD "") ≥ 3 then
    min 1 (qualityBase (pySplit (chunk.text.getD "")).length + 2/10)
  else if indicatorCount (chunk.text.getD "") ≥ 1 then
    min 1 (qualityBase (pySplit (chunk.text.getD "")).length + 1/10)
  else qualityBase (pySplit (chunk.text.getD "")).length

/-- Word-count base exactly as claim C7 words it, with inclusive thresholds. -/
def claimBaseGe (wc : ℕ) : ℚ :=
  if wc ≥ 300 then 1
  else if wc ≥ 150 then 8/10
  else if wc ≥ 75 then 6/10
  else 4/10

/-- Statement of claim C7's quality formula exactly as the spec words it. -/
def claimQualityGe (chunk : Chunk) : ℚ :=
  min 1 (claimBaseGe (pySplit (chunk.text.getD "")).length +
    (if indicatorCount (chunk.text.getD "") ≥ 3 then 2/10
     else if indicatorCount (chunk.text.getD "") ≥ 1 then 1/10 else 0))

/-- A text consisting of exactly 300 words. -/
def text300 : String :=
  String.mk (List.intercalate [' '] (List.replicate 300 ['a']))

set_option maxRecDepth 40000 in
/-- Claim C7, counterexample to the claim as stated: on a text of exactly 300
words the code's quality score is 0.8 (its word-count thresholds are strict),
while the claimed inclusive-threshold formula gives 1.0. -/
theorem quality_at_300_words_cex :
    assess_content_quality ⟨some text300, []⟩ = 8/10 ∧
    claimQualityGe ⟨some text300, []⟩ = 1 ∧ (8/10 : ℚ) ≠ 1 := by
  have hwc : (pySplit text300).length = 300 := by decide
  have hic : indicatorCount text300 = 0 := by decide
  have htext : (Chunk.mk (some text300) []).text.getD "" = text300 := rfl
  refine ⟨?_, ?_, by norm_num⟩
  · unfold assess_content_quality qualityBase
    rw [htext, hwc, hic]
    norm_num
  · unfold claimQualityGe claimBaseGe
    rw [htext, hwc, hic]
    norm_num

/-- Claim C7 (amended): the quality score equals a base from word count —
1.0 for more than 300 words, 0.8 for more than 150, 0.6 for more than 75,
0.4 otherwise — plus 0.2 if the lowercased text contains at least 3 of the ten
fixed structural indicator words, plus 0.1 if it contains 1 or 2 of them, with
the result capped at 1.0. -/
theorem quality_formula (c : Chunk) :
    assess_content_quality c =
      min 1 (qualityBase (pySplit (c.text.getD "")).length +
        (if indicatorCount (c.text.getD "") ≥ 3 then 2/10
         else if indicatorCount (c.text.getD "") ≥ 1 then 1/10 else 0)) := by
  have hb : qualityBase (pySplit (c.text.getD "")).length ≤ 1 := by
    unfold qualityBase; split_ifs <;> norm_num
  unfold assess_content_quality
  split_ifs with h1 h2
  · rfl
  · rfl
  · rw [add_zero, min_eq_right hb]

/-! ## RelevanceScorer.calculate_recency_score -/

/-- Leap year test of the proleptic Gregorian calendar. -/
def isLeap (y : ℕ) : Bool :=
  y % 4 == 0 && (y % 100 != 0 || y % 400 == 0)

/-- Days in a month, as validated by `datetime.strptime`. -/
def daysInMonth (y m : ℕ) : ℕ :=
  if m = 2 then (if isLeap y then 29 else 28)
  else if m = 4 ∨ m = 6 ∨ m = 9 ∨ m = 11 then 30
  else 31

/-- Calendar date. -/
structure Date where
  year : ℕ
  month : ℕ
  day : ℕ
  deriving DecidableEq

/-- Python `s.split(sep)`: keeps empty pieces. -/
def splitOnChar (sep : Char) : List Char → List (List Char)
  | [] => [[]]
  | c :: rest =>
    if c = sep then [] :: splitOnChar sep rest
    else
      match splitOnChar sep rest with
      | [] => [[c]]
      | w :: ws => (c :: w) :: ws

/-- Numeric value of a digit string. -/
def digitsToNat : List Char → ℕ → ℕ
  | [], acc => acc
  | c :: rest, acc => digitsToNat rest (acc * 10 + (c.toNat - 48))

/-- Model of the one-or-two-digit numeric `strptime` fields `%m`, `%H`, `%M`,
`%S`.  Their `_strptime` regexes (e.g. `1[0-2]|0[1-9]|[1-9]` for `%m`) accept
exactly the one- and two-digit decimal strings within the field's range; the
range itself is checked at each use site, so here: one or two ASCII digits,
consuming the whole separator-delimited field (separators `-`, `/`, `T`, `:`
can never be matched by a digit, so field splitting agrees with the anchored
regex match and its trailing "unconverted data remains" check). -/
def parseNumField (cs : List Char) : Option ℕ :=
  if 1 ≤ cs.length ∧ cs.length ≤ 2 ∧ cs.all Char.isDigit then
    some (digitsToNat cs 0)
  else none

/-- Model of `strptime`'s `%Y`: the `_strptime` regex is `\d\d\d\d`, exactly
four digits, and the `datetime` constructor then requires `year ≥ 1` (a
four-digit year is at most 9999 already); its `ValueError` is caught by the
source and treated as a parse failure. -/
def parseYear (cs : List Char) : Option ℕ :=
  if cs.length = 4 ∧ cs.all Char.isDigit ∧ 1 ≤ digitsToNat cs 0 then
    some (digitsToNat cs 0)
  else none

/-- Model of `strptime`'s `%d`: the `_strptime` regex
`3[01]|[12]\d|0[1-9]|[1-9]| [1-9]` accepts one or two digits (numeric values
checked against the month length at the use site, as the `datetime`
constructor does) and additionally a space-padded single day digit 1-9. -/
def parseDay (cs : List Char) : Option ℕ :=
  match cs with
  | [' ', c] => if c.isDigit ∧ c ≠ '0' then some (digitsToNat [c] 0) else none
  | _ => parseNumField cs

/-- Model of `datetime.strptime(s, "%Y-%m-%d")` with `-` generalised to `sep`:
exactly three fields, nothing left over, ranges validated as by the
`_strptime` regexes and the `datetime` constructor. -/
def parseYMD (sep : Char) (s : String) : Option Date :=
  match splitOnChar sep s.toList with
  | [ys, ms, ds] =>
    match parseYear ys, parseNumField ms, parseDay ds with
    | some y, some m, some d =>
      if 1 ≤ m ∧ m ≤ 12 ∧ 1 ≤ d ∧ d ≤ daysInMonth y m then
        some ⟨y, m, d⟩
      else none
    | _, _, _ => none
  | _ => none

/-- Model of `datetime.strptime(s, "%Y-%m-%dT%H:%M:%S")`; the time-of-day is
validated and then discarded, since the source truncates the age to whole
days and this model works at day granularity.  The `_strptime` regex for `%S`
also admits the leap seconds 60 and 61, but the `datetime` constructor raises
`ValueError` ("second must be in 0..59") on them, which the source's handler
turns into a parse failure, so they are rejected here. -/
def parseIsoDateTime (s : String) : Option Date :=
  match splitOnChar 'T' s.toList with
  | [datePart, timePart] =>
    match parseYMD '-' (String.mk datePart), splitOnChar ':' timePart with
    | some d, [hs, ms, ss] =>
      match parseNumField hs, parseNumField ms, parseNumField ss with
      | some h, some mi, some sec =>
        if h ≤ 23 ∧ mi ≤ 59 ∧ sec ≤ 59 then some d else none
      | _, _, _ => none
    | _, _ => none
  | _ => none

/-- Ordered date formats tried by `calculate_recency_score`:
`%Y-%m-%d`, `%Y/%m/%d`, `%Y-%m-%dT%H:%M:%S`. -/
def parsePubDate (s : String) : Option Date :=
  match parseYMD '-' s with
  | some d => some d
  | none =>
    match parseYMD '/' s with
    | some d => some d
    | none => parseIsoDateTime s

/-- Concrete checks that the date-parser model follows CPython's
`datetime.strptime` on its boundary behaviours: `%Y` takes exactly four
digits (so a three-digit year fails but a zero-padded one parses, and year
0000 is rejected by the `datetime` constructor), `%d` accepts a space-padded
single digit, `%m`/`%d` accept single digits, a day beyond the month's length
is rejected by the constructor, and the leap seconds accepted by the `%S`
regex are rejected by the constructor. -/
theorem strptime_model_edge_cases :
    parsePubDate "999-01-01" = none ∧
    parsePubDate "0999-01-01" = some ⟨999, 1, 1⟩ ∧
    parsePubDate "0000-01-01" = none ∧
    parsePubDate "2030-01- 5" = some ⟨2030, 1, 5⟩ ∧
    parsePubDate "2020-2-3" = some ⟨2020, 2, 3⟩ ∧
    parsePubDate "2020-02-30" = none ∧
    parsePubDate "2020-01-01T00:00:60" = none ∧
    parsePubDate "2020-01-01T23:59:59" = some ⟨2020, 1, 1⟩ := by
  decide

/-- Day number of a proleptic Gregorian date (standard days-from-civil
computation); only differences of ordinals are ever used. -/
def toOrdinal (dt : Date) : ℤ :=
  let y : ℕ := if dt.month ≤ 2 then dt.year - 1 else dt.year
  let era : ℕ := y / 400
  let yoe : ℕ := y - era * 400
  let mp : ℕ := (dt.month + 9) % 12
  let doy : ℕ := (153 * mp + 2) / 5 + (dt.day - 1)
  let doe : ℕ := yoe * 365 + yoe / 4 - yoe / 100 + doy
  ((era * 146097 + doe : ℕ) : ℤ)

/-- Shallow embedding of `RelevanceScorer.calculate_recency_score`.  `now` is
the current date's day number (`datetime.now()` at day granularity).  A falsy
or absent `publication_date` returns the neutral 0.5; a non-string value makes
`strptime` raise a `TypeError`, which the outer handler converts to 0.5 as
well (the `datetime`-instance branch cannot arise here because metadata dates
are strings). -/
def calculate_recency_score (now : ℤ) (chunk : Chunk) : ℚ :=
  match mget chunk.meta "publication_date" with
  | none => 1/2
  | some (.str s) =>
    if s = "" then 1/2
    else
      match parsePubDate s with
      | none => 1/2
      | some d =>
        let days_old : ℤ := now - toOrdinal d
        let years_old : ℚ := (days_old : ℚ) / 365
        max 0 (1 - years_old / 5)
  | some _ => 1/2

/-- The inline domain-authority table, in source (dict insertion) order. -/
def domain_scores : List (String × ℚ) :=
  [("arxiv.org", 85/100), ("scholar.google.com", 80/100),
   ("pubmed.ncbi.nlm.nih.gov", 90/100), ("nature.com", 95/100),
   ("science.org", 95/100), ("ieee.org", 85/100), ("acm.org", 85/100),
   ("nih.gov", 90/100), ("edu", 80/100), ("gov", 85/100), ("org", 75/100),
   ("com", 60/100)]

/-- Match the regex `https?://(?:www\.)?([^/]+)` at the head of `cs` and
return the captured group; the optional `www.` backtracks into `[^/]+` the way
the regex engine does. -/
def matchDomainAt (cs : List Char) : Option (List Char) :=
  match cs with
  | 'h' :: 't' :: 't' :: 'p' :: rest =>
    let afterScheme : Option (List Char) :=
      match rest with
      | 's' :: ':' :: '/' :: '/' :: r => some r
      | ':' :: '/' :: '/' :: r => some r
      | _ => none
    let tryCapture : List Char → Option (List Char) := fun u =>
      let cap := u.takeWhile (fun ch => ch ≠ '/')
      if cap.isEmpty then none else some cap
    match afterScheme with
    | none => none
    | some r =>
      match r with
      | 'w' :: 'w' :: 'w' :: '.' :: r' =>
        match tryCapture r' with
        | some cap => some cap
        | none => tryCapture r
      | _ => tryCapture r
  | _ => none

/-- Model of `re.search`: try the pattern at each position, left to right. -/
def searchDomain : List Char → Option (List Char)
  | [] => none
  | c :: rest =>
    match matchDomainAt (c :: rest) with
    | some cap => some cap
    | none => searchDomain rest

/-- Domain extraction in `compute_authority_scores`: the regex capture, or ""
when the pattern does not occur. -/
def extractDomain (url : String) : String :=
  match searchDomain url.toList with
  | some cap => String.mk cap
  | none => ""

/-- Python `s.endswith(t)`. -/
def endsWithStr (s t : String) : Bool :=
  let a := s.toList
  let b := t.toList
  if a.length < b.length then false else a.drop (a.length - b.length) == b

/-- The partial-match loop of `compute_authority_scores`: first table entry
whose domain the chunk domain is a subdomain of, at 0.9 times its score. -/
def firstSuffixScore (domain : String) : List (String × ℚ) → Option ℚ
  | [] => none
  | (d, score) :: rest =>
    if endsWithStr domain ("." ++ d) then some (score * (9/10))
    else firstSuffixScore domain rest

/-- Pre-boost authority of a domain: exact table match, else the first
suffix match at 0.9 times its score, else 0.5. -/
def baseAuthority (domain : String) : ℚ :=
  match domain_scores.lookup domain with
  | some v => v
  | none => (firstSuffixScore domain domain_scores).getD (1/2)

/-- Authority score of one chunk, following the loop body of
`RankAggregator.compute_authority_scores`. -/
def authorityScore (c : Chunk) : ℚ :=
  if strD c.meta "source_type" "" = "academic" then
    min 1 (baseAuthority (extractDomain (strD c.meta "url" "")) * (11/10))
  else baseAuthority (extractDomain (strD c.meta "url" ""))

/-- Shallow embedding of `RankAggregator.compute_authority_scores`: each
result chunk carries the input metadata with `authority_score` written. -/
def compute_authority_scores (chunks : List Chunk) : List Chunk :=
  chunks.map (fun c =>
    { text := some (c.text.getD ""),
      meta := mset c.meta "authority_score" (.num (authorityScore c)) })

theorem firstSuffixScore_eq_find (domain : String) (l : List (String × ℚ)) :
    firstSuffixScore domain l =
      (l.find? (fun p => endsWithStr domain ("." ++ p.1))).map (fun p => p.2 * (9/10)) := by
  induction l with
  | nil => rfl
  | cons hd tl ih =>
    obtain ⟨d, score⟩ := hd
    by_cases h : endsWithStr domain ("." ++ d)
    · simp [firstSuffixScore, h, List.find?]
    · simp only [firstSuffixScore, if_neg h, List.find?]
      rw [Bool.not_eq_true] at h
      simp only [h]
      exact ih

/-- Claim C6: authority assignment — the table value on an exact domain
match, 0.9 times the table value of the first entry the domain is a subdomain
of otherwise, 0.5 with no match at all; an `"academic"` source type then
multiplies the result by 1.1, capped at 1.0; and the list operation writes
exactly this score into each chunk's metadata. -/
theorem authority_cases (c : Chunk) :
    (∀ v, domain_scores.lookup (extractDomain (strD c.meta "url" "")) = some v →
      authorityScore c =
        (if strD c.meta "source_type" "" = "academic" then min 1 (v * (11/10)) else v)) ∧
    (domain_scores.lookup (extractDomain (strD c.meta "url" "")) = none →
      ∀ p, domain_scores.find?
          (fun q => endsWithStr (extractDomain (strD c.meta "url" "")) ("." ++ q.1)) = some p →
        authorityScore c =
          (if strD c.meta "source_type" "" = "academic" then
            min 1 ((p.2 * (9/10)) * (11/10)) else p.2 * (9/10))) ∧
    (domain_scores.lookup (extractDomain (strD c.meta "url" "")) = none →
      domain_scores.find?
          (fun q => endsWithStr (extractDomain (strD c.meta "url" "")) ("." ++ q.1)) = none →
        authorityScore c =
          (if strD c.meta "source_type" "" = "academic" then min 1 ((1/2) * (11/10))
           else 1/2)) ∧
    compute_authority_scores [c] =
      [⟨some (c.text.getD ""), mset c.meta "authority_score" (.num (authorityScore c))⟩] := by
  refine ⟨?_, ?_, ?_, rfl⟩
  · intro v hv
    simp [authorityScore, baseAuthority, hv]
  · intro hnone p hp
    simp [authorityScore, baseAuthority, hnone, firstSuffixScore_eq_find, hp]
  · intro hnone hfind
    simp [authorityScore, baseAuthority, hnone, firstSuffixScore_eq_find, hfind]

/-- Witness for C6, covering all three hypothesis shapes: an exact match
(`nature.com`, non-academic), a subdomain match (`export.arxiv.org`), and a
no-match academic chunk (0.5 boosted by 1.1). -/
theorem authority_cases_witness :
    authorityScore ⟨some "t", [("url", .str "https://www.nature.com/articles/x")]⟩ = 95/100 ∧
    authorityScore ⟨some "t", [("url", .str "http://export.arxiv.org/abs/1")]⟩ = 153/200 ∧
    authorityScore ⟨some "t", [("source_type", .str "academic")]⟩ = 11/20 := by
  refine ⟨?_, ?_, ?_⟩
  · have h := (authority_cases
      ⟨some "t", [("url", MetaVal.str "https://www.nature.com/articles/x")]⟩).1 (95/100) rfl
    rw [h, if_neg (by decide)]
  · have h := (authority_cases
      ⟨some "t", [("url", MetaVal.str "http://export.arxiv.org/abs/1")]⟩).2.1 rfl
      ("arxiv.org", 85/100) rfl
    rw [h, if_neg (by decide)]
    norm_num
  · have h := (authority_cases
      ⟨some "t", [("source_type", MetaVal.str "academic")]⟩).2.2.1 rfl rfl
    rw [h, if_pos (by decide), min_eq_right (by norm_num)]
    norm_num

/-! ## RankAggregator: weights, final scores, ranking -/

/-- The three configurable ranking weights. -/
structure Weights where
  semantic : ℚ
  authority : ℚ
  recency : ℚ
  deriving DecidableEq

/-- The fallback weights of `RankAggregator._load_weights` (they already sum
to 1, so the normalisation step would leave them unchanged). -/
def defaultWeights : Weights := ⟨1/2, 3/10, 1/5⟩

/-- Final-score formula applied to one metadata dictionary (the loop body of
`calculate_final_scores`): weighted sum of the four signals, each defaulting
to 0.5, with the fixed 0.1 quality weight, divided by the total weight. -/
def finalScoreOf (w : Weights) (m : Metadata) : ℚ :=
  (numD m "relevance_score" (1/2) * w.semantic +
   numD m "authority_score" (1/2) * w.authority +
   numD m "recency_score" (1/2) * w.recency +
   numD m "quality_score" (1/2) * (1/10)) /
  (w.semantic + w.authority + w.recency + 1/10)

/-- Per-chunk body of `RankAggregator.calculate_final_scores`. -/
def finalizeChunk (w : Weights) (c : Chunk) : Chunk :=
  { text := some (c.text.getD ""),
    meta := mset c.meta "final_score" (.num (finalScoreOf w c.meta)) }

/-- Shallow embedding of `RankAggregator.calculate_final_scores`. -/
def calculate_final_scores (w : Weights) (chunks : List Chunk) : List Chunk :=
  if chunks.isEmpty then [] else chunks.map (finalizeChunk w)

/-- Claim C1: for every chunk and every weight configuration,
`calculate_final_scores` stores under `final_score` exactly
`(relevance*w_semantic + authority*w_authority + recency*w_recency +
quality*0.1) / (w_semantic + w_authority + w_recency + 0.1)`, each signal
defaulting to 0.5 when absent from the chunk's metadata; the list operation
applies this to every chunk. -/
theorem final_score_formula (w : Weights) (chunks : List Chunk) (c : Chunk) :
    calculate_final_scores w chunks = chunks.map (finalizeChunk w) ∧
    mget (finalizeChunk w c).meta "final_score" =
      some (.num ((numD c.meta "relevance_score" (1/2) * w.semantic +
                   numD c.meta "authority_score" (1/2) * w.authority +
                   numD c.meta "recency_score" (1/2) * w.recency +
                   numD c.meta "quality_score" (1/2) * (1/10)) /
                  (w.semantic + w.authority + w.recency + 1/10))) := by
  constructor
  · unfold calculate_final_scores
    split_ifs with h
    · rw [List.isEmpty_iff.mp h]
      rfl
    · rfl
  · exact mget_mset_self c.meta "final_score" (.num (finalScoreOf w c.meta))

/-- Sort key of `rank_chunks`: `x.get("metadata", ...).get("final_score", 0)`. -/
def finalKey (c : Chunk) : ℚ :=
  numD c.meta "final_score" 0

/-- The comparator modelling Python `sorted(..., key=..., reverse=True)`:
a stable sort that keeps the left element on ties. -/
def rankLE (a b : Chunk) : Bool :=
  decide (finalKey b ≤ finalKey a)

/-- Shallow embedding of `RankAggregator.rank_chunks`: Python's `sorted` is a
stable merge sort; `reverse=True` flips the key comparison but never reorders
elements with equal keys. -/
def rank_chunks (chunks : List Chunk) : List Chunk :=
  chunks.mergeSort rankLE

/-- Shallow embedding of `RankAggregator.select_top_chunks`. -/
def select_top_chunks (chunks : List Chunk) (top_n : ℕ) : List Chunk :=
  (rank_chunks chunks).take top_n

theorem rankLE_trans (a b c : Chunk) (h1 : rankLE a b) (h2 : rankLE b c) :
    rankLE a c := by
  simp only [rankLE, decide_eq_true_eq] at *
  exact le_trans h2 h1

theorem rankLE_total (a b : Chunk) : rankLE a b || rankLE b a := by
  simp only [rankLE, Bool.or_eq_true, decide_eq_true_eq]
  exact le_total (finalKey b) (finalKey a)

/-- Claim C5: `rank_chunks` permutes its input into descending `final_score`
order, preserves the relative order of chunks with equal keys (stability:
filtering any key value gives the same subsequence before and after), and is
idempotent. -/
theorem rank_chunks_spec (chunks : List Chunk) :
    List.Perm (rank_chunks chunks) chunks ∧
    (rank_chunks chunks).Pairwise (fun a b => finalKey b ≤ finalKey a) ∧
    (∀ q : ℚ, (rank_chunks chunks).filter (fun c => finalKey c == q) =
      chunks.filter (fun c => finalKey c == q)) ∧
    rank_chunks (rank_chunks chunks) = rank_chunks chunks := by
  refine ⟨List.mergeSort_perm chunks rankLE, ?_, ?_, ?_⟩
  · have h := List.sorted_mergeSort rankLE_trans rankLE_total chunks
    exact h.imp (fun hab => by
      simpa [rankLE, decide_eq_true_eq] using hab)
  · intro q
    set p : Chunk → Bool := fun c => finalKey c == q with hp
    have hpw : (chunks.filter p).Pairwise (fun a b => rankLE a b) := by
      refine List.pairwise_of_forall_mem_list ?_
      intro a ha b hb
      have hka : finalKey a = q := by
        have := List.of_mem_filter ha
        simpa [hp] using this
      have hkb : finalKey b = q := by
        have := List.of_mem_filter hb
        simpa [hp] using this
      simp [rankLE, hka, hkb]
    have hsub : List.Sublist (chunks.filter p) (rank_chunks chunks) :=
      List.sublist_mergeSort rankLE_trans rankLE_total hpw (List.filter_sublist chunks)
    have hsub2 : List.Sublist ((chunks.filter p).filter p) ((rank_chunks chunks).filter p) :=
      hsub.filter p
    have hidem : (chunks.filter p).filter p = chunks.filter p := by
      simp
    rw [hidem] at hsub2
    have hperm : List.Perm ((rank_chunks chunks).filter p) (chunks.filter p) :=
      (List.mergeSort_perm chunks rankLE).filter p
    exact (hsub2.eq_of_length hperm.length_eq.symm).symm
  · unfold rank_chunks
    exact List.mergeSort_of_sorted (List.sorted_mergeSort rankLE_trans rankLE_total chunks)

/-! ## ContentEmbedder: MD5, mock embedding, fallback chain -/

namespace MD5

/-- Reduction to 32 bits. -/
def m32 (x : ℕ) : ℕ := x % 4294967296

/-- 32-bit modular addition. -/
def madd (a b : ℕ) : ℕ := m32 (a + b)

/-- 32-bit bitwise complement. -/
def mnot (x : ℕ) : ℕ := m32 x ^^^ 4294967295

/-- 32-bit left rotation. -/
def rotl (x n : ℕ) : ℕ := m32 (m32 x <<< n) ||| (m32 x >>> (32 - n))

/-- The four MD5 bit-mixing functions. -/
def mixF (b c d : ℕ) : ℕ := (b &&& c) ||| (mnot b &&& d)

def mixG (b c d : ℕ) : ℕ := (d &&& b) ||| (mnot d &&& c)

def mixH (b c d : ℕ) : ℕ := b ^^^ c ^^^ d

def mixI (b c d : ℕ) : ℕ := c ^^^ (b ||| mnot d)

/-- Per-round left-rotation amounts. -/
def shiftTable : List ℕ :=
  [7, 12, 17, 22, 7, 12, 17, 22, 7, 12, 17, 22, 7, 12, 17, 22,
   5, 9, 14, 20, 5, 9, 14, 20, 5, 9, 14, 20, 5, 9, 14, 20,
   4, 11, 16, 23, 4, 11, 16, 23, 4, 11, 16, 23, 4, 11, 16, 23,
   6, 10, 15, 21, 6, 10, 15, 21, 6, 10, 15, 21, 6, 10, 15, 21]

/-- Per-round additive constants (integer parts of `abs(sin(i+1)) * 2^32`). -/
def sineTable : List ℕ :=
  [0xd76aa478, 0xe8c7b756, 0x242070db, 0xc1bdceee,
   0xf57c0faf, 0x4787c62a, 0xa8304613, 0xfd469501,
   0x698098d8, 0x8b44f7af, 0xffff5bb1, 0x895cd7be,
   0x6b901122, 0xfd987193, 0xa679438e, 0x49b40821,
   0xf61e2562, 0xc040b340, 0x265e5a51, 0xe9b6c7aa,
   0xd62f105d, 0x02441453, 0xd8a1e681, 0xe7d3fbc8,
   0x21e1cde6, 0xc33707d6, 0xf4d50d87, 0x455a14ed,
   0xa9e3e905, 0xfcefa3f8, 0x676f02d9, 0x8d2a4c8a,
   0xfffa3942, 0x8771f681, 0x6d9d6122, 0xfde5380c,
   0xa4beea44, 0x4bdecfa9, 0xf6bb4b60, 0xbebfbc70,
   0x289b7ec6, 0xeaa127fa, 0xd4ef3085, 0x04881d05,
   0xd9d4d039, 0xe6db99e5, 0x1fa27cf8, 0xc4ac5665,
   0xf4292244, 0x432aff97, 0xab9423a7, 0xfc93a039,
   0x655b59c3, 0x8f0ccc92, 0xffeff47d, 0x85845dd1,
   0x6fa87e4f, 0xfe2ce6e0, 0xa3014314, 0x4e0811a1,
   0xf7537e82, 0xbd3af235, 0x2ad7d2bb, 0xeb86d391]

/-- One MD5 round on the state `(a, b, c, d)` with message words `msg`. -/
def round (msg : List ℕ) (st : ℕ × ℕ × ℕ × ℕ) (i : ℕ) : ℕ × ℕ × ℕ × ℕ :=
  let (a, b, c, d) := st
  let fg : ℕ × ℕ :=
    if i < 16 then (mixF b c d, i)
    else if i < 32 then (mixG b c d, (5 * i + 1) % 16)
    else if i < 48 then (mixH b c d, (3 * i + 5) % 16)
    else (mixI b c d, (7 * i) % 16)
  let tmp := madd (madd (madd a fg.1) (sineTable.getD i 0)) (msg.getD fg.2 0)
  (d, madd b (rotl tmp (shiftTable.getD i 0)), b, c)

/-- Compression of one 16-word block into the running state. -/
def processBlock (st : ℕ × ℕ × ℕ × ℕ) (msg : List ℕ) : ℕ × ℕ × ℕ × ℕ :=
  let r := (List.range 64).foldl (round msg) st
  (madd st.1 r.1, madd st.2.1 r.2.1, madd st.2.2.1 r.2.2.1, madd st.2.2.2 r.2.2.2)

/-- Little-endian packing of bytes into 32-bit words. -/
def toWords : List ℕ → List ℕ
  | b0 :: b1 :: b2 :: b3 :: rest =>
    (b0 + 256 * b1 + 65536 * b2 + 16777216 * b3) :: toWords rest
  | _ => []

/-- Splitting into 64-byte blocks; the fuel is the byte count, ample since
every step consumes 64 bytes. -/
def toBlocks : ℕ → List ℕ → List (List ℕ)
  | 0, _ => []
  | fuel + 1, bytes =>
    if bytes.isEmpty then []
    else bytes.take 64 :: toBlocks fuel (bytes.drop 64)

/-- Little-endian 64-bit length trailer (bit length of the message). -/
def lengthBytes (n : ℕ) : List ℕ :=
  (List.range 8).map (fun i => n / 256 ^ i % 256)

/-- Standard MD5 padding: `0x80`, zeros to 56 mod 64, 8 length bytes. -/
def pad (msg : List ℕ) : List ℕ :=
  msg ++ [128] ++ List.replicate ((120 - (msg.length + 1) % 64) % 64) 0 ++
    lengthBytes (8 * msg.length)

/-- Little-endian bytes of one 32-bit word. -/
def wordBytes (w : ℕ) : List ℕ :=
  [w % 256, w / 256 % 256, w / 65536 % 256, w / 16777216 % 256]

/-- The 16-byte MD5 digest of a byte sequence. -/
def digest (bytes : List ℕ) : List ℕ :=
  let padded := pad bytes
  let st := (toBlocks (padded.length + 1) padded).foldl
    (fun s blk => processBlock s (toWords blk))
    (0x67452301, 0xefcdab89, 0x98badcfe, 0x10325476)
  wordBytes st.1 ++ wordBytes st.2.1 ++ wordBytes st.2.2.1 ++ wordBytes st.2.2.2

theorem wordBytes_lt (w : ℕ) : ∀ b ∈ wordBytes w, b < 256 := by
  intro b hb
  simp only [wordBytes, List.mem_cons, List.not_mem_nil, or_false] at hb
  rcases hb with h | h | h | h <;> subst h <;> exact Nat.mod_lt _ (by norm_num)

theorem digest_length (bytes : List ℕ) : (digest bytes).length = 16 := by
  simp [digest, wordBytes]

theorem digest_bytes_lt (bytes : List ℕ) : ∀ b ∈ digest bytes, b < 256 := by
  intro b hb
  unfold digest at hb
  simp only [List.mem_append] at hb
  rcases hb with ((h | h) | h) | h <;> exact wordBytes_lt _ b h

end MD5

/-- UTF-8 byte values of a string, Python `text.encode()`. -/
def encodeUTF8 (s : String) : List ℕ :=
  (s.toUTF8.toList).map (fun b => b.toNat)

/-- The tiling loop of `_mock_embedding`: keep doubling until the vector has
at least 1536 entries.  The source's `while` loop would run forever on an
empty vector, but it only ever receives the 16-entry digest; the fuel (1536)
is never exhausted on nonempty input. -/
def tile : ℕ → List ℚ → List ℚ
  | 0, l => l
  | fuel + 1, l => if 1536 ≤ l.length then l else tile fuel (l ++ l)

/-- Mapping of one digest byte into [-1, 1): `b / 128.0 - 1.0`. -/
def byteToVal (b : ℕ) : ℚ :=
  (b : ℚ) / 128 - 1

/-- Shallow embedding of `ContentEmbedder._mock_embedding`: MD5 the UTF-8
text, map each digest byte `b` to `b / 128 - 1`, tile to at least 1536
entries, truncate to exactly 1536. -/
def mock_embedding (s : String) : List ℚ :=
  (tile 1536 ((MD5.digest (encodeUTF8 s)).map byteToVal)).take 1536

/-- Shallow embedding of `ContentEmbedder.embed_content`.  `api` and `locl`
give the per-text outcomes of the remote-provider and local-model methods;
`none` covers both a raised exception and a `None` result, `some []` a falsy
empty vector.  Each method's result is returned only when truthy; otherwise
the chain falls through to the deterministic mock embedding (the final
catch-all `return _mock_embedding(text)` yields the same value as the third
method, so the two are collapsed). -/
def embed_content (api locl : String → Option (List ℚ)) (t : String) : List ℚ :=
  match api t with
  | some e =>
    if e.isEmpty then
      match locl t with
      | some e' => if e'.isEmpty then mock_embedding t else e'
      | none => mock_embedding t
    else e
  | none =>
    match locl t with
    | some e' => if e'.isEmpty then mock_embedding t else e'
    | none => mock_embedding t

theorem tile_length_ge (fuel : ℕ) (l : List ℚ) (h : l.length ≠ 0) :
    min 1536 (fuel + l.length) ≤ (tile fuel l).length := by
  induction fuel generalizing l with
  | zero =>
    simp only [tile, Nat.zero_add]
    exact min_le_right _ _
  | succ n ih =>
    by_cases h1536 : 1536 ≤ l.length
    · simp only [tile, if_pos h1536]
      omega
    · simp only [tile, if_neg h1536]
      have h2 : (l ++ l).length ≠ 0 := by
        rw [List.length_append]; omega
      have hih := ih (l ++ l) h2
      rw [List.length_append] at hih
      omega

theorem tile_mem (fuel : ℕ) (l : List ℚ) : ∀ x ∈ tile fuel l, x ∈ l := by
  induction fuel generalizing l with
  | zero => simp [tile]
  | succ n ih =>
    intro x hx
    by_cases h1536 : 1536 ≤ l.length
    · simpa [tile, if_pos h1536] using hx
    · simp only [tile, if_neg h1536] at hx
      have := ih (l ++ l) x hx
      simpa using this

theorem mock_embedding_length (s : String) : (mock_embedding s).length = 1536 := by
  have hd : ((MD5.digest (encodeUTF8 s)).map byteToVal).length = 16 := by
    rw [List.length_map, MD5.digest_length]
  have h := tile_length_ge 1536 ((MD5.digest (encodeUTF8 s)).map byteToVal)
    (by rw [hd]; norm_num)
  rw [hd] at h
  unfold mock_embedding
  rw [List.length_take]
  omega

theorem mock_embedding_bounds (s : String) :
    ∀ x ∈ mock_embedding s, -1 ≤ x ∧ x ≤ 1 := by
  intro x hx
  have hx' : x ∈ tile 1536 ((MD5.digest (encodeUTF8 s)).map byteToVal) :=
    List.mem_of_mem_take hx
  have hx'' := tile_mem 1536 _ x hx'
  obtain ⟨b, hb, hxeq⟩ := List.mem_map.mp hx''
  have hblt : b < 256 := MD5.digest_bytes_lt (encodeUTF8 s) b hb
  subst hxeq
  unfold byteToVal
  constructor
  · have h0 : (0 : ℚ) ≤ (b : ℚ) / 128 := by positivity
    linarith
  · have hle : b ≤ 255 := by omega
    have h255 : (b : ℚ) ≤ 255 := by exact_mod_cast hle
    have : (b : ℚ) / 128 ≤ 255 / 128 := by linarith
    linarith

/-- Claim C9: when the remote provider and the local model are unavailable,
`embed_content` returns the deterministic fallback embedding, which hashes
the text, maps the digest bytes into values in [-1, 1], and tiles the byte
stream to the fixed dimensionality 1536; being a pure function of the text it
never throws and equal texts always yield equal vectors. -/
theorem embed_fallback_spec (t : String) :
    embed_content (fun _ => none) (fun _ => none) t = mock_embedding t ∧
    (mock_embedding t).length = 1536 ∧
    (∀ x ∈ mock_embedding t, -1 ≤ x ∧ x ≤ 1) := by
  exact ⟨rfl, mock_embedding_length t, mock_embedding_bounds t⟩

/-- Witness for C9 at a concrete text. -/
theorem embed_fallback_spec_witness :
    embed_content (fun _ => none) (fun _ => none) "quantum" = mock_embedding "quantum" ∧
    (mock_embedding "quantum").length = 1536 :=
  ⟨(embed_fallback_spec "quantum").1, (embed_fallback_spec "quantum").2.1⟩

/-! ## ContentEmbedder.compute_similarity -/

/-- Dot product (`np.dot`) of two vectors, zipping to the shorter length. -/
def dotQ (a b : List ℚ) : ℚ :=
  (List.zipWith (fun x y => x * y) a b).sum

/-- Rational square root, exact on perfect squares (used only there). -/
def ratSqrt (q : ℚ) : ℚ :=
  (Nat.sqrt q.num.toNat : ℚ) / (Nat.sqrt q.den : ℚ)

/-- Exact-case evaluation of the cosine similarity: identical to
`compute_similarity` except that the norms are taken with `ratSqrt`, so it
agrees with the code's similarity whenever both self dot products are perfect
squares (as in every concrete run below; see `relevance_out_of_range_cex`).
This is the rational-valued similarity injected into the pipeline model. -/
def simExact (a b : List ℚ) : ℚ :=
  if a = [] ∨ b = [] then 0
  else if ratSqrt (dotQ a a) = 0 ∨ ratSqrt (dotQ b b) = 0 then 0
  else dotQ a b / (ratSqrt (dotQ a a) * ratSqrt (dotQ b b))

/-! ## RelevanceScorer.score_chunks and ContentSelector -/

/-- Query dictionary: `text` key (possibly absent) plus metadata. -/
structure QueryD where
  text : Option String
  metadata : Metadata
  deriving DecidableEq

/-- Embedding resolution shared by the query and the chunks in
`score_chunks`: use the embedding stored under the `embedding` key; if falsy
and a `text` entry exists, embed the text; `[]` stands for "still falsy". -/
def resolveEmbedding (embed : String → List ℚ) (text : Option String)
    (m : Metadata) : List ℚ :=
  if vecOf m "embedding" = [] then
    (match text with
     | some t => embed t
     | none => vecOf m "embedding")
  else vecOf m "embedding"

/-- Shallow embedding of `RelevanceScorer.score_chunks`; `sim` and `embed`
are the injected embedder's operations (`compute_similarity` and
`embed_content`).  Returns the chunks unchanged when no query embedding is
available; a chunk with neither embedding nor text gets the minimal 0.1
relevance (and no quality score). -/
def score_chunks (sim : List ℚ → List ℚ → ℚ) (embed : String → List ℚ)
    (query : QueryD) (chunks : List Chunk) : List Chunk :=
  if resolveEmbedding embed query.text query.metadata = [] then chunks
  else chunks.map (fun c =>
    if resolveEmbedding embed c.text c.meta = [] then
      { c with meta := mset c.meta "relevance_score" (.num (1/10)) }
    else
      { text := some (c.text.getD ""),
        meta := mset (mset (mset c.meta "relevance_score"
                  (.num (sim (resolveEmbedding embed query.text query.metadata)
                             (resolveEmbedding embed c.text c.meta))))
                  "quality_score" (.num (assess_content_quality c)))
                "embedding" (.vec (resolveEmbedding embed c.text c.meta)) })

/-- The recency loop of `ContentSelector.select_content` (the only stage that
copies the metadata dictionary before writing). -/
def addRecency (now : ℤ) (chunks : List Chunk) : List Chunk :=
  chunks.map (fun c =>
    { text := some (c.text.getD ""),
      meta := mset c.meta "recency_score" (.num (calculate_recency_score now c)) })

/-- Shallow embedding of `ContentSelector.process_query` on a query dict: a
query without text is returned unchanged; otherwise an embedding is computed
if missing. -/
def cs_process_query (embed : String → List ℚ) (q : QueryD) : QueryD :=
  match q.text with
  | none => q
  | some t =>
    if (mget q.metadata "embedding").isNone then
      { q with metadata := mset q.metadata "embedding" (.vec (embed t)) }
    else q

/-- Shallow embedding of `ContentSelector.select_content`.  `query = none`
models a falsy query (`None` or an empty dict); `w` are the aggregator's
weights and `now` the current day number. -/
def select_content (sim : List ℚ → List ℚ → ℚ) (embed : String → List ℚ)
    (w : Weights) (now : ℤ)
    (query : Option QueryD) (chunks : List Chunk) (top_n : ℕ) : List Chunk :=
  match query with
  | none => []
  | some q =>
    if chunks = [] then []
    else
      let q' := if (mget q.metadata "embedding").isNone then cs_process_query embed q else q
      let s1 := score_chunks sim embed q' chunks
      let s2 := addRecency now s1
      let s3 := compute_authority_scores s2
      let s4 := calculate_final_scores w s3
      select_top_chunks s4 top_n

/-! ## RankingSystem -/

/-- The engine's running metrics. -/
structure Metrics where
  total_queries : ℕ
  total_chunks : ℕ
  average_time : ℚ
  deriving DecidableEq

/-- Metrics update in `rank_content`: counters plus the exponential moving
average of the elapsed time (seeded on first use). -/
def updateMetrics (st : Metrics) (nchunks : ℕ) (elapsed : ℚ) : Metrics :=
  { total_queries := st.total_queries + 1,
    total_chunks := st.total_chunks + nchunks,
    average_time :=
      if st.average_time = 0 then elapsed
      else 9/10 * st.average_time + 1/10 * elapsed }

/-- A query argument to the public API: a raw string, or a query dict
(`none` for a falsy `None` / empty dict). -/
inductive QueryInput where
  | raw (s : String)
  | dict (q : Option QueryD)
  deriving DecidableEq

/-- Shallow embedding of `RankingSystem.process_query`: wrap the text and
attach its embedding. -/
def sys_process_query (api locl : String → Option (List ℚ)) (s : String) : QueryD :=
  { text := some s,
    metadata := [("embedding", .vec (embed_content api locl s))] }

/-- Shallow embedding of `RankingSystem.rank_content`.  `api`/`locl` describe
the embedding providers, `sim` the injected similarity, `w` the aggregator
weights, `now` the current day, `elapsed` the measured wall-clock duration of
this call, `cfg_top_n` the configured default `top_n`.  All modelled
operations are total, so the `try/except` that converts internal exceptions
into an empty list has no failing branch to take. -/
def rank_content (api locl : String → Option (List ℚ))
    (sim : List ℚ → List ℚ → ℚ) (w : Weights) (now : ℤ) (elapsed : ℚ)
    (cfg_top_n : ℕ) (st : Metrics) (query : QueryInput) (chunks : List Chunk)
    (top_n : Option ℕ) : Metrics × List Chunk :=
  let q : Option QueryD :=
    match query with
    | .raw s => some (sys_process_query api locl s)
    | .dict d => d
  let n := top_n.getD cfg_top_n
  let ranked := select_content sim (embed_content api locl) w now q chunks n
  (updateMetrics st chunks.length elapsed, ranked)

/-- The result dictionary of `process_and_rank`. -/
structure RankedResult where
  ranked_chunks : List Chunk
  total_chunks : ℕ
  processing_time : String
  deriving DecidableEq

/-- Round to the nearest integer, halves to even (the rounding of two-decimal
float formatting). -/
def roundHalfEven (q : ℚ) : ℤ :=
  if q - ⌊q⌋ < 1/2 then ⌊q⌋
  else if 1/2 < q - ⌊q⌋ then ⌊q⌋ + 1
  else if ⌊q⌋ % 2 = 0 then ⌊q⌋ else ⌊q⌋ + 1

/-- Python `f"…:.2f"` on a rational: two decimal places. -/
def format2f (q : ℚ) : String :=
  (if roundHalfEven (q * 100) < 0 then "-" else "") ++
    toString ((roundHalfEven (q * 100)).natAbs / 100) ++ "." ++
    (if (roundHalfEven (q * 100)).natAbs % 100 < 10 then "0" else "") ++
    toString ((roundHalfEven (q * 100)).natAbs % 100)

/-- The string-to-dict normalisation at the top of `process_and_rank`. -/
def normalizeQuery (api locl : String → Option (List ℚ)) (q : QueryInput) :
    QueryInput :=
  match q with
  | .raw s => .dict (some (sys_process_query api locl s))
  | d => d

/-- Shallow embedding of `RankingSystem.process_and_rank`: normalise the
query, rank, and report `total_chunks` as the length of the returned ranked
list and `processing_time` as the updated average formatted to two decimals
with an `s` suffix. -/
def process_and_rank (api locl : String → Option (List ℚ))
    (sim : List ℚ → List ℚ → ℚ) (w : Weights) (now : ℤ) (elapsed : ℚ)
    (cfg_top_n : ℕ) (st : Metrics) (query : QueryInput) (chunks : List Chunk)
    (top_n : Option ℕ) : Metrics × RankedResult :=
  let qd := normalizeQuery api locl query
  let r := rank_content api locl sim w now elapsed cfg_top_n st qd chunks top_n
  (r.1,
   { ranked_chunks := r.2,
     total_chunks := r.2.length,
     processing_time := format2f r.1.average_time ++ "s" })

/-! ## Claims about rank_content and process_and_rank -/

theorem score_chunks_length (sim : List ℚ → List ℚ → ℚ)
    (embed : String → List ℚ) (q : QueryD) (chunks : List Chunk) :
    (score_chunks sim embed q chunks).length = chunks.length := by
  unfold score_chunks
  split_ifs <;> simp

theorem calculate_final_scores_length (w : Weights) (chunks : List Chunk) :
    (calculate_final_scores w chunks).length = chunks.length := by
  unfold calculate_final_scores
  split_ifs with h
  · simp [List.isEmpty_iff.mp h]
  · simp

theorem select_content_length (sim : List ℚ → List ℚ → ℚ)
    (embed : String → List ℚ) (w : Weights) (now : ℤ) (q : QueryD)
    (chunks : List Chunk) (top_n : ℕ) (h : chunks ≠ []) :
    (select_content sim embed w now (some q) chunks top_n).length =
      min top_n chunks.length := by
  simp only [select_content, if_neg h]
  rw [select_top_chunks, List.length_take, rank_chunks, List.length_mergeSort,
    calculate_final_scores_length]
  simp only [compute_authority_scores, addRecency, List.length_map]
  rw [score_chunks_length]

/-- Claim C4 (amended): on a falsy query dict (`None` or empty) or an empty
chunk list, `rank_content` returns the empty list with no scoring performed;
and since every modelled operation is total, no exception can propagate.  (A
falsy query *string* is instead wrapped into a truthy query dict and ranked
normally — see `rank_content_falsy_string_cex`.) -/
theorem rank_content_empty (api locl : String → Option (List ℚ))
    (sim : List ℚ → List ℚ → ℚ) (w : Weights) (now : ℤ) (elapsed : ℚ)
    (cfg_top_n : ℕ) (st : Metrics) (chunks : List Chunk) (top_n : Option ℕ)
    (q : QueryInput) :
    (rank_content api locl sim w now elapsed cfg_top_n st (.dict none) chunks
      top_n).2 = [] ∧
    (rank_content api locl sim w now elapsed cfg_top_n st q [] top_n).2 = [] := by
  constructor
  · rfl
  · cases q with
    | raw s => rfl
    | dict d =>
      cases d with
      | none => rfl
      | some qd => rfl

/-- Claim C4, counterexample to the claim as stated: the falsy query string
`""` is embedded and wrapped into a truthy query dict, after which one input
chunk is scored and returned — `rank_content` does not return the empty
list. -/
theorem rank_content_falsy_string_cex :
    (rank_content (fun _ => none) (fun _ => none) simExact defaultWeights 0 0 10
      ⟨0, 0, 0⟩ (.raw "") [⟨none, []⟩] none).2 ≠ [] := by
  have h : (rank_content (fun _ => none) (fun _ => none) simExact defaultWeights 0 0 10
      ⟨0, 0, 0⟩ (.raw "") [⟨none, []⟩] none).2 =
      select_content simExact (embed_content (fun _ => none) (fun _ => none))
        defaultWeights 0
        (some (sys_process_query (fun _ => none) (fun _ => none) "")) [⟨none, []⟩] 10 := rfl
  rw [h]
  have hlen := select_content_length simExact
    (embed_content (fun _ => none) (fun _ => none)) defaultWeights 0
    (sys_process_query (fun _ => none) (fun _ => none) "") [⟨none, []⟩] 10
    (by simp)
  intro hc
  rw [hc] at hlen
  simp at hlen

/-- Claim C10: `process_and_rank` reports `total_chunks` as the length of the
returned (truncated) ranked list, not the input count, and `processing_time`
as the engine's cumulative exponential-moving-average time formatted to two
decimals with an `s` suffix, not this call's elapsed time.  The concrete
conjuncts exhibit a run (one input chunk, falsy query, previous average 1s,
elapsed 2s) where `total_chunks = 0 ≠ 1` and the reported time is `"1.10s"`,
not `"2.00s"`. -/
theorem process_and_rank_result (api locl : String → Option (List ℚ))
    (sim : List ℚ → List ℚ → ℚ) (w : Weights) (now : ℤ) (elapsed : ℚ)
    (cfg_top_n : ℕ) (st : Metrics) (query : QueryInput) (chunks : List Chunk)
    (top_n : Option ℕ) :
    (process_and_rank api locl sim w now elapsed cfg_top_n st query chunks
        top_n).2.total_chunks =
      (process_and_rank api locl sim w now elapsed cfg_top_n st query chunks
        top_n).2.ranked_chunks.length ∧
    (process_and_rank api locl sim w now elapsed cfg_top_n st query chunks
        top_n).2.processing_time =
      format2f (updateMetrics st chunks.length elapsed).average_time ++ "s" ∧
    (process_and_rank (fun _ => none) (fun _ => none) simExact defaultWeights 0 2 10
        ⟨0, 0, 1⟩ (.dict none) [⟨some "t", []⟩] none).2 =
      ⟨[], 0, "1.10s"⟩ ∧
    format2f 2 ++ "s" = "2.00s" ∧
    (0 : ℕ) ≠ ([⟨some "t", []⟩] : List Chunk).length := by
  have hfloor110 : roundHalfEven 110 = 110 := by
    unfold roundHalfEven
    have h1 : ⌊(110 : ℚ)⌋ = 110 := by norm_num
    rw [h1]
    norm_num
  have hfmt110 : format2f (11/10) = "1.10" := by
    have h100 : (11/10 : ℚ) * 100 = 110 := by norm_num
    unfold format2f
    rw [h100, hfloor110]
    decide
  have hfloor200 : roundHalfEven 200 = 200 := by
    unfold roundHalfEven
    have h1 : ⌊(200 : ℚ)⌋ = 200 := by norm_num
    rw [h1]
    norm_num
  refine ⟨rfl, rfl, ?_, ?_, by decide⟩
  · have havg : (updateMetrics ⟨0, 0, 1⟩ 1 2).average_time = 11/10 := by
      simp only [updateMetrics]
      norm_num
    show (⟨[], 0, format2f (updateMetrics ⟨0, 0, 1⟩ 1 2).average_time ++ "s"⟩ :
        RankedResult) = ⟨[], 0, "1.10s"⟩
    rw [havg, hfmt110]
    rfl
  · have h100 : (2 : ℚ) * 100 = 200 := by norm_num
    unfold format2f
    rw [h100, hfloor200]
    decide

/-! ## Claim C2: score ranges -/

/-- The heap of metadata dictionaries. -/
abbrev Store := List Metadata

/-- A chunk as a Python object: its `text` entry and the heap address of its
metadata dictionary. -/
structure ChunkRef where
  text : Option String
  meta : ℕ
  deriving DecidableEq

/-- Loop of `RelevanceScorer.score_chunks` on the heap: both branches write
the scores into the chunk's own metadata dictionary (`metadata[...] = ...` on
the object obtained from `chunk.get("metadata")`), and the appended result
chunk carries the same address (the `continue` branch appends the original
chunk object itself). -/
def score_chunks_st_go (sim : List ℚ → List ℚ → ℚ) (embed : String → List ℚ)
    (qe : List ℚ) (st : Store) : List ChunkRef → Store × List ChunkRef
  | [] => (st, [])
  | c :: rest =>
    if resolveEmbedding embed c.text (st.getD c.meta []) = [] then
      let st' := st.set c.meta
        (mset (st.getD c.meta []) "relevance_score" (.num (1/10)))
      let r := score_chunks_st_go sim embed qe st' rest
      (r.1, c :: r.2)
    else
      let md' := mset (mset (mset (st.getD c.meta []) "relevance_score"
                  (.num (sim qe (resolveEmbedding embed c.text (st.getD c.meta [])))))
                  "quality_score"
                  (.num (assess_content_quality ⟨c.text, st.getD c.meta []⟩)))
                "embedding" (.vec (resolveEmbedding embed c.text (st.getD c.meta [])))
      let r := score_chunks_st_go sim embed qe (st.set c.meta md') rest
      (r.1, ⟨some (c.text.getD ""), c.meta⟩ :: r.2)

/-- Heap-aware `RelevanceScorer.score_chunks`. -/
def score_chunks_st (sim : List ℚ → List ℚ → ℚ) (embed : String → List ℚ)
    (query : QueryD) (st : Store) (chunks : List ChunkRef) :
    Store × List ChunkRef :=
  if resolveEmbedding embed query.text query.metadata = [] then (st, chunks)
  else score_chunks_st_go sim embed
    (resolveEmbedding embed query.text query.metadata) st chunks

/-- Heap-aware recency loop of `ContentSelector.select_content`: this stage
calls `metadata.copy()`, i.e. allocates a fresh dictionary at a fresh address
and leaves the input dictionaries untouched. -/
def addRecency_st (now : ℤ) (st : Store) : List ChunkRef → Store × List ChunkRef
  | [] => (st, [])
  | c :: rest =>
    let md := st.getD c.meta []
    let copied := mset md "recency_score" (.num (calculate_recency_score now ⟨c.text, md⟩))
    let r := addRecency_st now (st ++ [copied]) rest
    (r.1, ⟨some (c.text.getD ""), st.length⟩ :: r.2)

/-- Heap-aware `RankAggregator.compute_authority_scores`: writes the score
into the input chunk's metadata dictionary in place. -/
def compute_authority_scores_st (st : Store) : List ChunkRef → Store × List ChunkRef
  | [] => (st, [])
  | c :: rest =>
    let md := st.getD c.meta []
    let st' := st.set c.meta (mset md "authority_score" (.num (authorityScore ⟨c.text, md⟩)))
    let r := compute_authority_scores_st st' rest
    (r.1, ⟨some (c.text.getD ""), c.meta⟩ :: r.2)

/-- Inner loop of the heap-aware `calculate_final_scores`. -/
def calculate_final_scores_st_go (w : Weights) (st : Store) :
    List ChunkRef → Store × List ChunkRef
  | [] => (st, [])
  | c :: rest =>
    let md := st.getD c.meta []
    let st' := st.set c.meta (mset md "final_score" (.num (finalScoreOf w md)))
    let r := calculate_final_scores_st_go w st' rest
    (r.1, ⟨some (c.text.getD ""), c.meta⟩ :: r.2)

/-- Heap-aware `RankAggregator.calculate_final_scores`: writes the fused
score into the input chunk's metadata dictionary in place. -/
def calculate_final_scores_st (w : Weights) (st : Store) (chunks : List ChunkRef) :
    Store × List ChunkRef :=
  if chunks.isEmpty then (st, []) else calculate_final_scores_st_go w st chunks

/-- Claim C3, counterexample to the claim as stated: running
`calculate_final_scores` on a chunk whose (empty) metadata dictionary lives
at address 0 writes `final_score` into that same dictionary — the caller's
chunk observes the new key, so the stage mutates the input chunk in place. -/
theorem final_scores_mutate_cex :
    mget ((calculate_final_scores_st defaultWeights [[]] [⟨some "t", 0⟩]).1.getD 0 [])
      "final_score" = some (.num (1/2)) ∧
    mget (([[]] : Store).getD 0 []) "final_score" = none := by
  constructor
  · have hv : finalScoreOf defaultWeights [] = 1/2 := by
      norm_num [finalScoreOf, numD, mget, List.lookup, defaultWeights]
    have hst : (calculate_final_scores_st defaultWeights [[]] [⟨some "t", 0⟩]).1.getD 0 [] =
        [("final_score", MetaVal.num (finalScoreOf defaultWeights []))] := rfl
    rw [hst, hv]
    rfl
  · rfl

theorem score_chunks_st_go_meta (sim : List ℚ → List ℚ → ℚ)
    (embed : String → List ℚ) (qe : List ℚ) (chunks : List ChunkRef) :
    ∀ st : Store, (score_chunks_st_go sim embed qe st chunks).2.map (fun c => c.meta) =
      chunks.map (fun c => c.meta) := by
  induction chunks with
  | nil => intro st; rfl
  | cons c rest ih =>
    intro st
    simp only [score_chunks_st_go]
    split_ifs <;> simp [ih]

theorem compute_authority_scores_st_meta (chunks : List ChunkRef) :
    ∀ st : Store, (compute_authority_scores_st st chunks).2.map (fun c => c.meta) =
      chunks.map (fun c => c.meta) := by
  induction chunks with
  | nil => intro st; rfl
  | cons c rest ih =>
    intro st
    simp only [compute_authority_scores_st]
    simp [ih]

theorem calculate_final_scores_st_go_meta (w : Weights) (chunks : List ChunkRef) :
    ∀ st : Store, (calculate_final_scores_st_go w st chunks).2.map (fun c => c.meta) =
      chunks.map (fun c => c.meta) := by
  induction chunks with
  | nil => intro st; rfl
  | cons c rest ih =>
    intro st
    simp only [calculate_final_scores_st_go]
    simp [ih]

theorem addRecency_st_preserves (now : ℤ) (chunks : List ChunkRef) :
    ∀ st : Store, (addRecency_st now st chunks).1.take st.length = st := by
  induction chunks with
  | nil => intro st; simp [addRecency_st]
  | cons c rest ih =>
    intro st
    simp only [addRecency_st]
    have hih := ih (st ++ [mset (st.getD c.meta [])
      "recency_score" (.num (calculate_recency_score now ⟨c.text, st.getD c.meta []⟩))])
    rw [List.length_append] at hih
    have h1 : (addRecency_st now (st ++ [mset (st.getD c.meta [])
        "recency_score" (.num (calculate_recency_score now
          ⟨c.text, st.getD c.meta []⟩))]) rest).1.take st.length =
        ((addRecency_st now (st ++ [mset (st.getD c.meta [])
          "recency_score" (.num (calculate_recency_score now
            ⟨c.text, st.getD c.meta []⟩))]) rest).1.take (st.length + 1)).take st.length := by
      rw [List.take_take]
      congr 1
      omega
    rw [h1]
    simp only [List.length_singleton] at hih
    rw [hih]
    exact List.take_left st _

/-- Claim C3 (amended): the relevance, authority and final-score stages
return new chunk values that alias the input chunks' metadata dictionaries
(the returned chunks carry the same addresses, and the scores are written
into those dictionaries in place — see `final_scores_mutate_cex`); only the
recency step copies the metadata first, leaving every existing dictionary in
the store unchanged. -/
theorem pipeline_metadata_aliasing (sim : List ℚ → List ℚ → ℚ)
    (embed : String → List ℚ) (q : QueryD) (w : Weights) (now : ℤ)
    (st : Store) (chunks : List ChunkRef) :
    (score_chunks_st sim embed q st chunks).2.map (fun c => c.meta) =
      chunks.map (fun c => c.meta) ∧
    (compute_authority_scores_st st chunks).2.map (fun c => c.meta) =
      chunks.map (fun c => c.meta) ∧
    (calculate_final_scores_st w st chunks).2.map (fun c => c.meta) =
      chunks.map (fun c => c.meta) ∧
    (addRecency_st now st chunks).1.take st.length = st := by
  refine ⟨?_, compute_authority_scores_st_meta chunks st, ?_,
    addRecency_st_preserves now chunks st⟩
  · unfold score_chunks_st
    split_ifs with h
    · rfl
    · exact score_chunks_st_go_meta sim embed _ chunks st
  · unfold calculate_final_scores_st
    split_ifs with h
    · rw [List.isEmpty_iff.mp h]
    · exact calculate_final_scores_st_go_meta w chunks st

end DeepResearch
